/-
Verification of the Timeseries engine of the FEWS_Kazakhstan repository
(Modules/talsim-ng/customers/Ishim/applications/TalsimFEWSAdapter/lib/timeseries.py).

The Python class `Timeseries` stores metadata plus a dict mapping naive
`datetime.datetime` keys to float values.  The shallow embedding below models:
  * naive datetimes as a record of calendar fields (`DT`),
  * float values as `Option ℚ` (`none` is the in-memory NaN sentinel, `some q`
    an ordinary float; exact rationals stand in for Python floats, which is
    faithful for the comparison/addition/division steps the claims exercise),
  * the nodes dict as an association list `List (DT × Val)`; unless stated
    otherwise a series' list is kept in timestamp-sorted order, the canonical
    representation of the dict (every observation the code makes goes through
    the sorted accessors `dates` / `values` / iteration, so the sorted list is
    observationally equivalent to the insertion-ordered dict),
  * methods that can raise as functions returning the mutated-so-far state
    together with an optional error, or `Except` where only the error matters.

A second, heap-indexed view (`SeriesH` over a `Store`) models Python object
identity of the `nodes` dict, which is needed for the claims about `copy()`
producing an independent duplicate and `synchronize` leaving its inputs
untouched.
-/
import Mathlib

/-- Interpretation enum of timeseries.py (class Interpretation, IntEnum). -/
inductive Interpretation where
  | Instantaneous
  | BlockRight
  | BlockLeft
  | Cumulative
  | CumulativePerTimestep
  | Undefined
deriving DecidableEq, Repr

/-- Naive `datetime.datetime` (timeseries keys carry no timezone: `add_node`
strips tzinfo before storing). Fields follow the Python attribute names. -/
structure DT where
  year : Nat
  month : Nat
  day : Nat
  hour : Nat
  minute : Nat
  second : Nat
deriving DecidableEq, Repr

/-- Packs the calendar fields into one natural number with radices strictly
larger than the field ranges of a valid datetime (month ≤ 12 < 16, day ≤ 31 <
32, hour ≤ 23 < 32, minute, second ≤ 59 < 64), so that comparing keys is the
lexicographic field comparison Python uses on `datetime` objects. -/
def DT.key (d : DT) : Nat :=
  ((((d.year * 16 + d.month) * 32 + d.day) * 32 + d.hour) * 64 + d.minute) * 64 + d.second

/-- In-memory value of a node: `none` models `np.nan`, `some q` a float. -/
abbrev Val := Option ℚ

/-- The `nodes` dict of a Timeseries, as an association list. -/
abbrev NodeMap := List (DT × Val)

/-- Keys of the nodes dict (`self.nodes.keys()`). -/
def keysOf (m : NodeMap) : List DT := m.map Prod.fst

/-- Dict lookup `self.nodes[date]` (first binding of the key; keys are unique
in every map the code builds). -/
def lookupN : NodeMap → DT → Option Val
  | [], _ => none
  | p :: rest, t => if p.1 = t then some p.2 else lookupN rest t

/-- Insert a binding keeping the canonical timestamp-sorted order. -/
def insertSorted (t : DT) (v : Val) : NodeMap → NodeMap
  | [] => [(t, v)]
  | p :: rest => if t.key < p.1.key then (t, v) :: p :: rest else p :: insertSorted t v rest

/-- The Timeseries container: the metadata attributes set by `__init__` plus
the nodes dict (pure view, used where object identity is irrelevant). -/
structure Timeseries where
  title : String
  station_id : String
  station_name : String
  param : String
  unit : String
  location : String
  lat : ℚ
  lon : ℚ
  z : ℚ
  interpretation : Interpretation
  nodes : NodeMap
deriving DecidableEq, Repr

/-- `Timeseries.__init__(title)`: metadata defaults and an empty nodes dict. -/
def Timeseries.init (title : String) : Timeseries :=
  { title := title, station_id := "0", station_name := "", param := "", unit := "",
    location := "", lat := 0, lon := 0, z := 0,
    interpretation := Interpretation.Undefined, nodes := [] }

/-- The `timestamp` argument of `add_node`: a `datetime.datetime`, a date-only
`datetime.date` (converted to midnight), or any other object (a `ValueError`). -/
inductive TsArg where
  | dt (t : DT)
  | dateOnly (year month day : Nat)
  | notADate
deriving DecidableEq, Repr

/-- Timestamp normalization at the top of `add_node`: date → midnight
datetime, non-dates raise `ValueError`; tzinfo stripping is implicit because
`DT` is already naive. -/
def normTs : TsArg → Except String DT
  | TsArg.dt t => Except.ok t
  | TsArg.dateOnly y m d => Except.ok ⟨y, m, d, 0, 0, 0⟩
  | TsArg.notADate => Except.error "ValueError: not a valid datetime"

/-- Core of `add_node` on the nodes dict: returns the dict as mutated by the
call together with the raised error, if any (a raise happens before the dict
is touched, as in the source). -/
def add_node_map (m : NodeMap) (arg : TsArg) (v : Val) : NodeMap × Option String :=
  match normTs arg with
  | Except.error e => (m, some e)
  | Except.ok t =>
      if t ∈ keysOf m then
        (m, some "KeyError: reassigning the value of an already existing timestamp is not allowed")
      else
        (insertSorted t v m, none)

/-- `Timeseries.add_node(timestamp, value)`: first component is the series
after the call (unchanged when the call raises), second the raised error. -/
def Timeseries.add_node (s : Timeseries) (arg : TsArg) (v : Val) : Timeseries × Option String :=
  let r := add_node_map s.nodes arg v
  ({ s with nodes := r.1 }, r.2)

/-- Direct dict assignment `ts.nodes[t] = v` (plain `dict.__setitem__`):
overwrites the binding of an existing key, otherwise adds a new binding. -/
def setKey (m : NodeMap) (t : DT) (v : Val) : NodeMap :=
  if t ∈ keysOf m then m.map (fun p => if p.1 = t then (t, v) else p)
  else insertSorted t v m

/-- `ts.nodes[t] = v` at the series level. -/
def nodesSet (s : Timeseries) (t : DT) (v : Val) : Timeseries :=
  { s with nodes := setKey s.nodes t v }

/-- The loop of `Timeseries.cut`: walk the sorted nodes, skip dates before
`start` (continue), stop at the first date after `end` (break), keep the rest.  -/
def cutLoop (start e : DT) : NodeMap → NodeMap
  | [] => []
  | p :: rest =>
      if p.1.key < start.key then cutLoop start e rest
      else if e.key < p.1.key then []
      else p :: cutLoop start e rest

/-- `Timeseries.cut(start, end)` (pure view: returns the mutated series). -/
def Timeseries.cut (s : Timeseries) (start e : DT) : Timeseries :=
  { s with nodes := cutLoop start e s.nodes }

/-- Functional model of Python `bisect.bisect_left(dates, x, lo)` on a sorted
list: `lo` plus the length of the run of elements below `x` from `lo` on
(the insertion point bisection computes on sorted input). -/
def bisect_left (dates : List DT) (x : DT) (lo : Nat) : Nat :=
  lo + ((dates.drop lo).takeWhile (fun d => d.key < x.key)).length

/-- `Timeseries.cut_bisect(start, end)`: keeps `dates[i_start : i_end + 1]`
where both indices come from `bisect_left`; the resulting dict is the
corresponding slice of the (uniquely-keyed) sorted nodes. -/
def Timeseries.cut_bisect (s : Timeseries) (start e : DT) : Timeseries :=
  let dates := keysOf s.nodes
  let i_start := bisect_left dates start 0
  let i_end := bisect_left dates e i_start
  { s with nodes := (s.nodes.drop i_start).take (i_end + 1 - i_start) }

/-- Leap year rule used by `calendar.monthrange`. -/
def isLeap (y : Nat) : Bool := y % 4 = 0 && (y % 100 != 0 || y % 400 = 0)

/-- Number of days of a month (`calendar.monthrange(year, month)[1]`). -/
def daysInMonth (y m : Nat) : Nat :=
  if m = 2 then (if isLeap y then 29 else 28)
  else if m = 4 ∨ m = 6 ∨ m = 9 ∨ m = 11 then 30
  else 31

/-- `Timeseries.add_months(sourcedate, months)`: month/year arithmetic with the
day clamped to the target month's length; the time-of-day is preserved.
`int(year + month / 12)` truncates the float division, which for the
non-negative values here is the natural-number division `month / 12`. -/
def add_months (sourcedate : DT) (months : Nat) : DT :=
  let month := sourcedate.month - 1 + months
  let year := sourcedate.year + month / 12
  let month := month % 12 + 1
  let day := min sourcedate.day (daysInMonth year month)
  ⟨year, month, day, sourcedate.hour, sourcedate.minute, sourcedate.second⟩

/-- `t + datetime.timedelta(days=1)` on a calendar-valid datetime. -/
def nextDay (d : DT) : DT :=
  if d.day + 1 ≤ daysInMonth d.year d.month then { d with day := d.day + 1 }
  else if d.month = 12 then { d with year := d.year + 1, month := 1, day := 1 }
  else { d with month := d.month + 1, day := 1 }

/-- `t + datetime.timedelta(hours=1)` on a calendar-valid datetime. -/
def nextHour (d : DT) : DT :=
  if d.hour + 1 < 24 then { d with hour := d.hour + 1 }
  else nextDay { d with hour := 0 }

/-- Closing a bucket in `aggregate`: NaN if (`ignore_nan` is false and a NaN
is in the bucket) or all values are NaN (`all([])` is true, matching Python);
otherwise NaNs are filtered and the reducer applied ("Sum" adds, anything
else — necessarily "LinearInterpolation" — takes the arithmetic mean). -/
def closeBucket (interpretation : String) (ignore_nan : Bool) (values : List Val) : Val :=
  if (!ignore_nan && values.contains none) || values.all Option.isNone then none
  else
    let vs := values.filterMap id
    if interpretation = "Sum" then some (vs.foldl (· + ·) 0)
    else some ((vs.foldl (· + ·) 0) / (vs.length : ℚ))

/-- The per-node loop of `aggregate`: nodes before `start` are skipped; a node
at or past the running boundary `t_next` closes the current bucket (storing it
at `t`), advances `t` and seeds the new bucket with that node; otherwise the
node joins the current bucket.  The bucket still open when the input ends is
discarded, exactly as in the source. -/
def aggLoop (dt interpretation : String) (ignore_nan : Bool) (start : DT) :
    List (DT × Val) → DT → List Val → NodeMap → NodeMap
  | [], _, _, nodes_agg => nodes_agg
  | (timestamp, value) :: rest, t, values, nodes_agg =>
      if timestamp.key < start.key then
        aggLoop dt interpretation ignore_nan start rest t values nodes_agg
      else
        let t_next := if dt = "h" then nextHour t else if dt = "d" then nextDay t else add_months t 1
        if t_next.key ≤ timestamp.key then
          let agg_value := closeBucket interpretation ignore_nan values
          aggLoop dt interpretation ignore_nan start rest t_next [value] (nodes_agg ++ [(t, agg_value)])
        else
          aggLoop dt interpretation ignore_nan start rest t (values ++ [value]) nodes_agg

/-- `Timeseries.copy_metadata(ts)`: copies the nine string/coordinate metadata
fields from `ts` onto `self` (`interpretation` is not among them). -/
def copy_metadata (self ts : Timeseries) : Timeseries :=
  { self with
    title := ts.title
    station_id := ts.station_id
    station_name := ts.station_name
    param := ts.param
    unit := ts.unit
    location := ts.location
    lat := ts.lat
    lon := ts.lon
    z := ts.z }

/-- `Timeseries.aggregate(dt, start, interpretation, ignore_nan)`: validates
the parameters, runs the aggregation loop over the time-ordered nodes, and
wraps the result in a fresh `Timeseries()` that receives the source metadata
via `copy_metadata` and the step label appended to the title. -/
def aggregate (self : Timeseries) (dt : String) (start : DT)
    (interpretation : String) (ignore_nan : Bool) : Except String Timeseries :=
  if ¬ (dt = "h" ∨ dt = "d" ∨ dt = "M") then
    Except.error "ValueError: value for parameter dt is not supported"
  else if ¬ (interpretation = "LinearInterpolation" ∨ interpretation = "Sum") then
    Except.error "ValueError: value for parameter interpretation is not supported"
  else
    let nodes_agg := aggLoop dt interpretation ignore_nan start self.nodes start [] []
    let ts := Timeseries.init ""
    let ts := copy_metadata ts self
    let ts := { ts with title := ts.title ++ " (" ++ dt ++ ")" }
    Except.ok { ts with nodes := nodes_agg }

deriving instance DecidableEq for Except

/-- Midnight datetime helper for concrete inputs. -/
def mkDT (y m d : Nat) : DT := ⟨y, m, d, 0, 0, 0⟩

/-- The daily series of the aggregation scenario: values 1, 2, 3, 4 at
2021-01-01 through 2021-01-04. -/
def c1series : Timeseries :=
  { Timeseries.init "daily" with nodes :=
      [(mkDT 2021 1 1, some 1), (mkDT 2021 1 2, some 2),
       (mkDT 2021 1 3, some 3), (mkDT 2021 1 4, some 4)] }

/-- C1, counterexample: aggregating the daily series 1, 2, 3, 4 of January
2021 by month with reducer Sum and ignore_nan = False, starting 2021-01-01,
does not produce the single node (2021-01-01, 10) the claim asserts. -/
theorem c1_aggregate_counterexample :
    (aggregate c1series "M" (mkDT 2021 1 1) "Sum" false).map Timeseries.nodes ≠
      Except.ok [(mkDT 2021 1 1, some 10)] := by
  decide

/-- C1, amended: that call returns a series with no nodes at all — a bucket
is emitted only when some node's timestamp reaches or passes the bucket's
upper boundary, no node of the series reaches 2021-02-01, and the loop
discards the bucket still open when the input ends. -/
theorem c1_aggregate_last_bucket_dropped :
    (aggregate c1series "M" (mkDT 2021 1 1) "Sum" false).map Timeseries.nodes =
      Except.ok [] := by
  decide

/-- Input for C4: the same daily series, with a definite source interpretation. -/
def c4series : Timeseries :=
  { Timeseries.init "daily" with
    interpretation := Interpretation.Instantaneous
    nodes :=
      [(mkDT 2021 1 1, some 1), (mkDT 2021 1 2, some 2),
       (mkDT 2021 1 3, some 3), (mkDT 2021 1 4, some 4), (mkDT 2021 2 3, some 7)] }

/-- C4, code bug: `aggregate` promises (docstring and spec) a result with
interpretation BlockRight, but the fresh `Timeseries()` defaults to Undefined
and `copy_metadata` never copies the interpretation field, so the result's
interpretation is Undefined — not BlockRight — for this (and every) input. -/
theorem c4_aggregate_interpretation_undefined :
    (aggregate c4series "M" (mkDT 2021 1 1) "Sum" false).map Timeseries.interpretation =
        Except.ok Interpretation.Undefined ∧
      Interpretation.Undefined ≠ Interpretation.BlockRight := by
  constructor
  · decide
  · decide

/-- Input for C2's counterexample: three nodes on consecutive days. -/
def c2series : Timeseries :=
  { Timeseries.init "s" with nodes :=
      [(mkDT 2020 1 1, some 1), (mkDT 2020 1 2, some 2), (mkDT 2020 1 3, some 3)] }

/-- C2, counterexample: cutting with `end` = 2020-01-02 12:00 — a bound that
is not itself a node timestamp — `cut` keeps the nodes of Jan 1 and Jan 2,
while `cut_bisect` also keeps Jan 3 (its slice runs through `i_end`, the
insertion point of `end`, inclusively), so the two results differ. -/
theorem c2_cut_bisect_counterexample :
    (c2series.cut (mkDT 2020 1 1) ⟨2020, 1, 2, 12, 0, 0⟩).nodes ≠
      (c2series.cut_bisect (mkDT 2020 1 1) ⟨2020, 1, 2, 12, 0, 0⟩).nodes := by
  decide

/-- The nodes list is strictly sorted by timestamp — the invariant of the
canonical dict representation (dict keys are unique, and the code walks them
through the sorted `dates` accessor). -/
def SortedNodes (m : NodeMap) : Prop :=
  m.Pairwise (fun a b => a.1.key < b.1.key)


theorem cutLoop_eq_filter (start e : DT) (l : NodeMap) (hs : SortedNodes l) :
    cutLoop start e l =
      l.filter (fun p => decide (start.key ≤ p.1.key) && decide (p.1.key ≤ e.key)) := by
  induction l with
  | nil => rfl
  | cons p rest ih =>
    rcases List.pairwise_cons.mp hs with ⟨hall, htail⟩
    by_cases h1 : p.1.key < start.key
    · have hns : ¬ start.key ≤ p.1.key := by omega
      simp [cutLoop, h1, hns, ih htail, List.filter_cons]
    · by_cases h2 : e.key < p.1.key
      · have hrest : rest.filter
            (fun p => decide (start.key ≤ p.1.key) && decide (p.1.key ≤ e.key)) = [] := by
          rw [List.filter_eq_nil_iff]
          intro q hq
          have := hall q hq
          simp only [Bool.and_eq_true, decide_eq_true_eq]
          omega
        have hne : ¬ p.1.key ≤ e.key := by omega
        simp [cutLoop, h1, h2, hne, List.filter_cons, hrest]
      · have hle : p.1.key ≤ e.key := by omega
        have hge : start.key ≤ p.1.key := by omega
        simp [cutLoop, h1, h2, hge, hle, List.filter_cons, ih htail]

theorem drop_length_takeWhile {α : Type} (q : α → Bool) (l : List α) :
    l.drop (l.takeWhile q).length = l.dropWhile q := by
  induction l with
  | nil => rfl
  | cons a rest ih =>
    by_cases h : q a
    · simp [List.takeWhile_cons, List.dropWhile_cons, h, ih]
    · simp [List.takeWhile_cons, List.dropWhile_cons, h]

theorem mem_dropWhile_of_not {α : Type} (q : α → Bool) (l : List α) (a : α)
    (ha : a ∈ l) (hq : q a = false) : a ∈ l.dropWhile q := by
  induction l with
  | nil => exact absurd ha (List.not_mem_nil a)
  | cons b rest ih =>
    by_cases h : q b
    · have hne : a ≠ b := by
        intro he
        rw [he] at hq
        rw [hq] at h
        exact Bool.noConfusion h
      have hmem : a ∈ rest := by
        rcases List.mem_cons.mp ha with h' | h'
        · exact absurd h' hne
        · exact h'
      simpa [List.dropWhile_cons, h] using ih hmem
    · simpa [List.dropWhile_cons, h] using ha

theorem take_succ_takeWhile_lt (e : DT) (l : NodeMap) (hs : SortedNodes l)
    (hmem : ∃ p ∈ l, p.1.key = e.key) :
    l.take ((l.takeWhile (fun p => decide (p.1.key < e.key))).length + 1) =
      l.takeWhile (fun p => decide (p.1.key ≤ e.key)) := by
  induction l with
  | nil => simp at hmem
  | cons p rest ih =>
    rcases List.pairwise_cons.mp hs with ⟨hall, htail⟩
    by_cases h : p.1.key < e.key
    · have hmem' : ∃ q ∈ rest, q.1.key = e.key := by
        rcases hmem with ⟨q, hq, hqe⟩
        rcases List.mem_cons.mp hq with h' | h'
        · rw [h'] at hqe
          omega
        · exact ⟨q, h', hqe⟩
      have hle : p.1.key ≤ e.key := by omega
      simp [List.takeWhile_cons, h, hle, List.take_succ_cons, ih htail hmem']
    · have hpe : p.1.key = e.key := by
        rcases hmem with ⟨q, hq, hqe⟩
        rcases List.mem_cons.mp hq with h' | h'
        · rw [← h']
          exact hqe
        · have := hall q h'
          omega
      have hrest : rest.takeWhile (fun p => decide (p.1.key ≤ e.key)) = [] := by
        cases rest with
        | nil => rfl
        | cons q rest' =>
          have := hall q (List.mem_cons_self q rest')
          have hq : ¬ q.1.key ≤ e.key := by omega
          simp [List.takeWhile_cons, hq]
      have hle : p.1.key ≤ e.key := by omega
      simp [List.takeWhile_cons, h, hle, hrest]

theorem filter_le_eq_takeWhile (e : DT) (l : NodeMap) (hs : SortedNodes l) :
    l.filter (fun p => decide (p.1.key ≤ e.key)) =
      l.takeWhile (fun p => decide (p.1.key ≤ e.key)) := by
  induction l with
  | nil => rfl
  | cons p rest ih =>
    rcases List.pairwise_cons.mp hs with ⟨hall, htail⟩
    by_cases h : p.1.key ≤ e.key
    · simp [List.filter_cons, List.takeWhile_cons, h, ih htail]
    · have hrest : rest.filter (fun p => decide (p.1.key ≤ e.key)) = [] := by
        rw [List.filter_eq_nil_iff]
        intro q hq
        have := hall q hq
        simp only [decide_eq_true_eq]
        omega
      simp [List.filter_cons, List.takeWhile_cons, h, hrest]

theorem filter_range_eq_dropWhile_takeWhile (start e : DT) (l : NodeMap) (hs : SortedNodes l) :
    l.filter (fun p => decide (start.key ≤ p.1.key) && decide (p.1.key ≤ e.key)) =
      (l.dropWhile (fun p => decide (p.1.key < start.key))).takeWhile
        (fun p => decide (p.1.key ≤ e.key)) := by
  induction l with
  | nil => rfl
  | cons p rest ih =>
    rcases List.pairwise_cons.mp hs with ⟨hall, htail⟩
    by_cases h1 : p.1.key < start.key
    · have hns : ¬ start.key ≤ p.1.key := by omega
      rw [List.dropWhile_cons_of_pos (by simpa using h1)]
      rw [List.filter_cons_of_neg (by simp [hns])]
      exact ih htail
    · have hcong : (p :: rest).filter
            (fun p => decide (start.key ≤ p.1.key) && decide (p.1.key ≤ e.key)) =
          (p :: rest).filter (fun p => decide (p.1.key ≤ e.key)) := by
        apply List.filter_congr
        intro q hq
        have hq1 : start.key ≤ q.1.key := by
          rcases List.mem_cons.mp hq with h' | h'
          · rw [h']
            omega
          · have := hall q h'
            omega
        simp [hq1]
      rw [hcong, List.dropWhile_cons_of_neg (by simpa using h1)]
      exact filter_le_eq_takeWhile e (p :: rest) hs

theorem keysOf_takeWhile (x : DT) (l : NodeMap) :
    (keysOf l).takeWhile (fun d => decide (d.key < x.key)) =
      keysOf (l.takeWhile (fun p => decide (p.1.key < x.key))) := by
  induction l with
  | nil => rfl
  | cons p rest ih =>
    simp only [keysOf] at ih ⊢
    by_cases h : p.1.key < x.key <;>
      simp [List.takeWhile_cons, h, ih]

theorem keysOf_drop (n : Nat) (l : NodeMap) : (keysOf l).drop n = keysOf (l.drop n) := by
  induction n generalizing l with
  | zero => simp
  | succ k ih =>
    cases l with
    | nil => rfl
    | cons p rest => exact ih rest

theorem bisect_left_zero (x : DT) (dates : List DT) :
    bisect_left dates x 0 = (dates.takeWhile (fun d => decide (d.key < x.key))).length := by
  unfold bisect_left
  rw [List.drop_zero]
  omega

theorem cut_bisect_slice (start e : DT) (l : NodeMap) :
    (l.drop (bisect_left (keysOf l) start 0)).take
        (bisect_left (keysOf l) e (bisect_left (keysOf l) start 0) + 1
          - bisect_left (keysOf l) start 0) =
      (l.dropWhile (fun p => decide (p.1.key < start.key))).take
        (((l.dropWhile (fun p => decide (p.1.key < start.key))).takeWhile
            (fun p => decide (p.1.key < e.key))).length + 1) := by
  have h1 : bisect_left (keysOf l) start 0 =
      (l.takeWhile (fun p => decide (p.1.key < start.key))).length := by
    rw [bisect_left_zero, keysOf_takeWhile]
    simp [keysOf]
  have h2 : l.drop (bisect_left (keysOf l) start 0) =
      l.dropWhile (fun p => decide (p.1.key < start.key)) := by
    rw [h1, drop_length_takeWhile]
  have hdef : bisect_left (keysOf l) e (bisect_left (keysOf l) start 0) =
      bisect_left (keysOf l) start 0 +
        (((keysOf l).drop (bisect_left (keysOf l) start 0)).takeWhile
          (fun d => decide (d.key < e.key))).length := rfl
  have h3 : bisect_left (keysOf l) e (bisect_left (keysOf l) start 0) + 1
        - bisect_left (keysOf l) start 0 =
      ((l.dropWhile (fun p => decide (p.1.key < start.key))).takeWhile
        (fun p => decide (p.1.key < e.key))).length + 1 := by
    rw [hdef, keysOf_drop, h2, keysOf_takeWhile]
    simp [keysOf]
    omega
  rw [h2, h3]

/-- C2, amended: `cut` and `cut_bisect` agree whenever the upper bound `end`
is itself one of the series' node timestamps and `start <= end`; the
counterexample shows they genuinely differ otherwise (`cut_bisect` also keeps
the node at the insertion point of `end`). -/
theorem c2_cut_eq_cut_bisect (s : Timeseries) (start e : DT)
    (hs : SortedNodes s.nodes) (hmem : e ∈ keysOf s.nodes) (hse : start.key ≤ e.key) :
    (s.cut start e).nodes = (s.cut_bisect start e).nodes := by
  have hrest_sorted : SortedNodes (s.nodes.dropWhile (fun p => decide (p.1.key < start.key))) :=
    List.Pairwise.sublist (List.dropWhile_sublist _) hs
  rcases List.mem_map.mp hmem with ⟨q, hq, hqfst⟩
  have hqkey : q.1.key = e.key := by rw [hqfst]
  have hqpred : (fun p : DT × Val => decide (p.1.key < start.key)) q = false := by
    simp only [decide_eq_false_iff_not]
    omega
  have hqrest : q ∈ s.nodes.dropWhile (fun p => decide (p.1.key < start.key)) :=
    mem_dropWhile_of_not _ _ _ hq hqpred
  have hmem' : ∃ p ∈ s.nodes.dropWhile (fun p => decide (p.1.key < start.key)),
      p.1.key = e.key := ⟨q, hqrest, hqkey⟩
  show cutLoop start e s.nodes = _
  rw [cutLoop_eq_filter start e s.nodes hs,
    filter_range_eq_dropWhile_takeWhile start e s.nodes hs]
  show _ = (s.nodes.drop (bisect_left (keysOf s.nodes) start 0)).take
      (bisect_left (keysOf s.nodes) e (bisect_left (keysOf s.nodes) start 0) + 1
        - bisect_left (keysOf s.nodes) start 0)
  rw [cut_bisect_slice start e s.nodes,
    take_succ_takeWhile_lt e _ hrest_sorted hmem']

instance (m : NodeMap) : Decidable (SortedNodes m) :=
  inferInstanceAs (Decidable (m.Pairwise (fun a b : DT × Val => a.1.key < b.1.key)))

/-- C2, witness: on the three-day series, cutting with the node timestamp
2020-01-02 as the upper bound makes both implementations agree. -/
theorem c2_cut_eq_cut_bisect_witness :
    (c2series.cut (mkDT 2020 1 1) (mkDT 2020 1 2)).nodes =
      (c2series.cut_bisect (mkDT 2020 1 1) (mkDT 2020 1 2)).nodes :=
  c2_cut_eq_cut_bisect c2series (mkDT 2020 1 1) (mkDT 2020 1 2)
    (by decide) (by decide) (by decide)

theorem lookupN_map_update (m : NodeMap) (t t' : DT) (v : Val) (hne : t' ≠ t) :
    lookupN (m.map (fun p => if p.1 = t then (t, v) else p)) t' = lookupN m t' := by
  induction m with
  | nil => rfl
  | cons p rest ih =>
    by_cases h : p.1 = t
    · have : t ≠ t' := fun he => hne he.symm
      simp [lookupN, h, this, ih]
    · simp only [List.map_cons, if_neg h, lookupN, ih]

theorem lookupN_map_update_self (m : NodeMap) (t : DT) (v : Val) (hmem : t ∈ keysOf m) :
    lookupN (m.map (fun p => if p.1 = t then (t, v) else p)) t = some v := by
  induction m with
  | nil => simp [keysOf] at hmem
  | cons p rest ih =>
    by_cases h : p.1 = t
    · simp [lookupN, h]
    · have hmem' : t ∈ keysOf rest := by
        rcases List.mem_map.mp hmem with ⟨q, hq, hqt⟩
        rcases List.mem_cons.mp hq with h' | h'
        · rw [h'] at hqt
          exact absurd hqt h
        · exact List.mem_map.mpr ⟨q, h', hqt⟩
      have hne : ¬ p.1 = t := h
      simp [lookupN, hne, ih hmem']

/-- C7, confirmed: for a timestamp `t` already among the series' node keys,
`add_node(t, v)` raises (for any value `v`), while the direct mapping
assignment `ts.nodes[t] = v` succeeds: it stores `v` at `t`, leaves the value
at every other timestamp `t'` unchanged, and leaves all metadata unchanged. -/
theorem c7_add_node_duplicate (s : Timeseries) (t t' : DT) (v : Val)
    (hmem : t ∈ keysOf s.nodes) (hne : t' ≠ t) :
    (s.add_node (TsArg.dt t) v).2.isSome = true ∧
      lookupN (nodesSet s t v).nodes t = some v ∧
      lookupN (nodesSet s t v).nodes t' = lookupN s.nodes t' ∧
      (nodesSet s t v).title = s.title ∧
      (nodesSet s t v).station_id = s.station_id ∧
      (nodesSet s t v).station_name = s.station_name ∧
      (nodesSet s t v).param = s.param ∧
      (nodesSet s t v).unit = s.unit ∧
      (nodesSet s t v).location = s.location ∧
      (nodesSet s t v).lat = s.lat ∧
      (nodesSet s t v).lon = s.lon ∧
      (nodesSet s t v).z = s.z ∧
      (nodesSet s t v).interpretation = s.interpretation := by
  refine ⟨?_, ?_, ?_, rfl, rfl, rfl, rfl, rfl, rfl, rfl, rfl, rfl, rfl⟩
  · simp [Timeseries.add_node, add_node_map, normTs, hmem]
  · show lookupN (setKey s.nodes t v) t = some v
    rw [setKey, if_pos hmem]
    exact lookupN_map_update_self s.nodes t v hmem
  · show lookupN (setKey s.nodes t v) t' = lookupN s.nodes t'
    rw [setKey, if_pos hmem]
    exact lookupN_map_update s.nodes t t' v hne

/-- C7, witness: on the concrete three-day series, adding at the existing
timestamp 2020-01-02 raises while direct assignment updates exactly that node. -/
theorem c7_add_node_duplicate_witness :
    (c2series.add_node (TsArg.dt (mkDT 2020 1 2)) (some 42)).2.isSome = true ∧
      lookupN (nodesSet c2series (mkDT 2020 1 2) (some 42)).nodes (mkDT 2020 1 2) = some (some 42) ∧
      lookupN (nodesSet c2series (mkDT 2020 1 2) (some 42)).nodes (mkDT 2020 1 1) =
        lookupN c2series.nodes (mkDT 2020 1 1) ∧
      (nodesSet c2series (mkDT 2020 1 2) (some 42)).title = c2series.title ∧
      (nodesSet c2series (mkDT 2020 1 2) (some 42)).station_id = c2series.station_id ∧
      (nodesSet c2series (mkDT 2020 1 2) (some 42)).station_name = c2series.station_name ∧
      (nodesSet c2series (mkDT 2020 1 2) (some 42)).param = c2series.param ∧
      (nodesSet c2series (mkDT 2020 1 2) (some 42)).unit = c2series.unit ∧
      (nodesSet c2series (mkDT 2020 1 2) (some 42)).location = c2series.location ∧
      (nodesSet c2series (mkDT 2020 1 2) (some 42)).lat = c2series.lat ∧
      (nodesSet c2series (mkDT 2020 1 2) (some 42)).lon = c2series.lon ∧
      (nodesSet c2series (mkDT 2020 1 2) (some 42)).z = c2series.z ∧
      (nodesSet c2series (mkDT 2020 1 2) (some 42)).interpretation = c2series.interpretation :=
  c7_add_node_duplicate c2series (mkDT 2020 1 2) (mkDT 2020 1 1) (some 42)
    (by decide) (by decide)

/-- C10, confirmed: whenever `add_node` raises — duplicate timestamp or a
timestamp argument that is not a date/datetime — the series is returned
exactly as it was: the raise happens before the nodes dict is touched, and no
metadata is written at all. -/
theorem c10_add_node_atomic (s : Timeseries) (arg : TsArg) (v : Val)
    (herr : (s.add_node arg v).2.isSome = true) :
    (s.add_node arg v).1 = s := by
  cases arg with
  | dt t =>
      by_cases hmem : t ∈ keysOf s.nodes
      · simp [Timeseries.add_node, add_node_map, normTs, hmem]
      · simp [Timeseries.add_node, add_node_map, normTs, hmem] at herr
  | dateOnly y m d =>
      by_cases hmem : (⟨y, m, d, 0, 0, 0⟩ : DT) ∈ keysOf s.nodes
      · simp [Timeseries.add_node, add_node_map, normTs, hmem]
      · simp [Timeseries.add_node, add_node_map, normTs, hmem] at herr
  | notADate => simp [Timeseries.add_node, add_node_map, normTs]

/-- C10, witness: the failed duplicate insertion on the concrete series
leaves it unchanged. -/
theorem c10_add_node_atomic_witness :
    (c2series.add_node (TsArg.dt (mkDT 2020 1 3)) (some 99)).1 = c2series :=
  c10_add_node_atomic c2series (TsArg.dt (mkDT 2020 1 3)) (some 99) (by decide)

/-- Heap of nodes dicts: a Python `nodes` attribute is a reference into this
store; `readRef` of an unallocated reference gives the empty dict (the claims
only use valid references). -/
abbrev Store := List NodeMap

/-- Dereference a nodes dict. -/
def readRef (st : Store) (r : Nat) : NodeMap := st.getD r []

/-- Mutate the dict a reference points at. -/
def writeRef (st : Store) (r : Nat) (m : NodeMap) : Store := st.set r m

/-- Heap-level view of a Timeseries: the same metadata attributes, but the
`nodes` attribute is a reference into a `Store` — this models Python object
identity of the dict, which `copy()` and `synchronize` manipulate. -/
structure SeriesH where
  title : String
  station_id : String
  station_name : String
  param : String
  unit : String
  location : String
  lat : ℚ
  lon : ℚ
  z : ℚ
  interpretation : Interpretation
  nodesRef : Nat
deriving DecidableEq, Repr

/-- `Timeseries.copy()`: a fresh `Timeseries(self.title)` (so interpretation
keeps its `Undefined` default — the source never copies it), the other nine
metadata fields assigned, and `self.nodes.copy()`: a newly allocated dict
holding the same bindings. -/
def SeriesH.copy (s : SeriesH) (st : Store) : SeriesH × Store :=
  ({ title := s.title
     station_id := s.station_id
     station_name := s.station_name
     param := s.param
     unit := s.unit
     location := s.location
     lat := s.lat
     lon := s.lon
     z := s.z
     interpretation := Interpretation.Undefined
     nodesRef := st.length }, st ++ [readRef st s.nodesRef])

/-- `ts.add_node(...)` acting through the heap reference. -/
def heap_add_node (st : Store) (s : SeriesH) (arg : TsArg) (v : Val) : Store × Option String :=
  let r := add_node_map (readRef st s.nodesRef) arg v
  (writeRef st s.nodesRef r.1, r.2)

/-- `del ts.nodes[t]` acting through the heap reference (KeyError when the
timestamp is absent). -/
def heap_del_node (st : Store) (s : SeriesH) (t : DT) : Store × Option String :=
  let m := readRef st s.nodesRef
  if t ∈ keysOf m then
    (writeRef st s.nodesRef (m.filter (fun p => decide (p.1 ≠ t))), none)
  else (st, some "KeyError")

/-- The deletion loop of `synchronize` (`for date in diff: del sync.nodes[date]`):
its net effect on the heap is one filter of the dict the series references. -/
def delDates (st : Store) (s : SeriesH) (ds : List DT) : Store :=
  writeRef st s.nodesRef ((readRef st s.nodesRef).filter (fun p => decide (p.1 ∉ ds)))

/-- `Timeseries.synchronize(ts1, ts2)`: take the two date sets, copy both
series, and delete from each copy the dates that are missing from the other
input; the originals are only read, never written. -/
def synchronize (ts1 ts2 : SeriesH) (st : Store) : SeriesH × SeriesH × Store :=
  let ts1_dates := keysOf (readRef st ts1.nodesRef)
  let ts2_dates := keysOf (readRef st ts2.nodesRef)
  let c1 := ts1.copy st
  let c2 := ts2.copy c1.2
  let diff1 := ts1_dates.filter (fun d => decide (d ∉ ts2_dates))
  let st3 := delDates c2.2 c1.1 diff1
  let diff2 := ts2_dates.filter (fun d => decide (d ∉ ts1_dates))
  let st4 := delDates st3 c2.1 diff2
  (c1.1, c2.1, st4)

/-- First series returned by `synchronize`. -/
def sync1 (ts1 ts2 : SeriesH) (st : Store) : SeriesH := (synchronize ts1 ts2 st).1

/-- Second series returned by `synchronize`. -/
def sync2 (ts1 ts2 : SeriesH) (st : Store) : SeriesH := (synchronize ts1 ts2 st).2.1

/-- Heap state after `synchronize`. -/
def syncStore (ts1 ts2 : SeriesH) (st : Store) : Store := (synchronize ts1 ts2 st).2.2

/-- Equality of all ten metadata attributes of two heap-level series. -/
def metaEqH (a b : SeriesH) : Prop :=
  a.title = b.title ∧ a.station_id = b.station_id ∧ a.station_name = b.station_name ∧
    a.param = b.param ∧ a.unit = b.unit ∧ a.location = b.location ∧ a.lat = b.lat ∧
    a.lon = b.lon ∧ a.z = b.z ∧ a.interpretation = b.interpretation

instance (a b : SeriesH) : Decidable (metaEqH a b) :=
  inferInstanceAs (Decidable (_ ∧ _))

theorem readRef_append_lt (st : Store) (m : NodeMap) (r : Nat) (h : r < st.length) :
    readRef (st ++ [m]) r = readRef st r := by
  induction st generalizing r with
  | nil => simp at h
  | cons a l ih =>
    cases r with
    | zero => rfl
    | succ k => exact ih k (by simpa using h)

theorem readRef_append_len (st : Store) (m : NodeMap) :
    readRef (st ++ [m]) st.length = m := by
  induction st with
  | nil => rfl
  | cons a l ih => exact ih

theorem readRef_writeRef_self (st : Store) (r : Nat) (m : NodeMap) (h : r < st.length) :
    readRef (writeRef st r m) r = m := by
  induction st generalizing r with
  | nil => simp at h
  | cons a l ih =>
    cases r with
    | zero => rfl
    | succ k => exact ih k (by simpa using h)

theorem readRef_writeRef_ne (st : Store) (r r' : Nat) (m : NodeMap) (h : r ≠ r') :
    readRef (writeRef st r m) r' = readRef st r' := by
  induction st generalizing r r' with
  | nil => rfl
  | cons a l ih =>
    cases r with
    | zero =>
      cases r' with
      | zero => exact absurd rfl h
      | succ k' => rfl
    | succ k =>
      cases r' with
      | zero => rfl
      | succ k' => exact ih k k' (by omega)

theorem length_writeRef (st : Store) (r : Nat) (m : NodeMap) :
    (writeRef st r m).length = st.length := by
  simp [writeRef]

theorem readRef_heap_add_other (st : Store) (s : SeriesH) (arg : TsArg) (v : Val) (r : Nat)
    (h : s.nodesRef ≠ r) :
    readRef (heap_add_node st s arg v).1 r = readRef st r := by
  unfold heap_add_node
  exact readRef_writeRef_ne st s.nodesRef r _ h

theorem readRef_heap_del_other (st : Store) (s : SeriesH) (t : DT) (r : Nat)
    (h : s.nodesRef ≠ r) :
    readRef (heap_del_node st s t).1 r = readRef st r := by
  unfold heap_del_node
  by_cases hc : t ∈ keysOf (readRef st s.nodesRef)
  · simp only [hc, if_true]
    exact readRef_writeRef_ne st s.nodesRef r _ h
  · simp only [hc, if_false]

/-- A concrete series and store for the C6 counterexample. -/
def c6series : SeriesH :=
  { title := "obs", station_id := "7", station_name := "st", param := "Q",
    unit := "m3s", location := "loc", lat := 1, lon := 2, z := 3,
    interpretation := Interpretation.Instantaneous, nodesRef := 0 }

/-- Store holding c6series's single-node dict. -/
def c6store : Store := [[(mkDT 2020 5 1, some 4)]]

/-- C6, counterexample: `copy()` does not preserve the interpretation field —
the copy of a series with interpretation Instantaneous has interpretation
Undefined (the fresh `Timeseries(self.title)` default is never overwritten),
so not all metadata fields of the copy equal those of the original. -/
theorem c6_copy_counterexample :
    (c6series.copy c6store).1.interpretation ≠ c6series.interpretation := by
  decide

/-- C6, amended: `copy()` returns a new series whose metadata fields other
than interpretation equal the original's (interpretation is reset to
Undefined), holding a freshly allocated nodes dict with the same bindings;
the fresh dict is a different object, so a subsequent insertion
(`add_node`) or deletion (`del nodes[t]`) performed on the copy leaves the
original's nodes unchanged. -/
theorem c6_copy_amended (s : SeriesH) (st : Store) (arg : TsArg) (v : Val) (d : DT)
    (h : s.nodesRef < st.length) :
    (s.copy st).1.title = s.title ∧
      (s.copy st).1.station_id = s.station_id ∧
      (s.copy st).1.station_name = s.station_name ∧
      (s.copy st).1.param = s.param ∧
      (s.copy st).1.unit = s.unit ∧
      (s.copy st).1.location = s.location ∧
      (s.copy st).1.lat = s.lat ∧
      (s.copy st).1.lon = s.lon ∧
      (s.copy st).1.z = s.z ∧
      (s.copy st).1.interpretation = Interpretation.Undefined ∧
      (s.copy st).1.nodesRef ≠ s.nodesRef ∧
      readRef (s.copy st).2 (s.copy st).1.nodesRef = readRef st s.nodesRef ∧
      readRef (s.copy st).2 s.nodesRef = readRef st s.nodesRef ∧
      readRef (heap_add_node (s.copy st).2 (s.copy st).1 arg v).1 s.nodesRef =
        readRef st s.nodesRef ∧
      readRef (heap_del_node (s.copy st).2 (s.copy st).1 d).1 s.nodesRef =
        readRef st s.nodesRef := by
  have hne : (s.copy st).1.nodesRef ≠ s.nodesRef := by
    show st.length ≠ s.nodesRef
    omega
  have hcopy : readRef (s.copy st).2 s.nodesRef = readRef st s.nodesRef :=
    readRef_append_lt st _ s.nodesRef h
  refine ⟨rfl, rfl, rfl, rfl, rfl, rfl, rfl, rfl, rfl, rfl, hne, ?_, hcopy, ?_, ?_⟩
  · exact readRef_append_len st _
  · rw [readRef_heap_add_other _ _ _ _ _ hne]
    exact hcopy
  · rw [readRef_heap_del_other _ _ _ _ hne]
    exact hcopy

/-- C6, witness: the amended copy specification holds at the concrete series,
store, an insertion at 2020-06-01 and a deletion at 2020-05-01. -/
theorem c6_copy_amended_witness :
    (c6series.copy c6store).1.title = c6series.title ∧
      (c6series.copy c6store).1.station_id = c6series.station_id ∧
      (c6series.copy c6store).1.station_name = c6series.station_name ∧
      (c6series.copy c6store).1.param = c6series.param ∧
      (c6series.copy c6store).1.unit = c6series.unit ∧
      (c6series.copy c6store).1.location = c6series.location ∧
      (c6series.copy c6store).1.lat = c6series.lat ∧
      (c6series.copy c6store).1.lon = c6series.lon ∧
      (c6series.copy c6store).1.z = c6series.z ∧
      (c6series.copy c6store).1.interpretation = Interpretation.Undefined ∧
      (c6series.copy c6store).1.nodesRef ≠ c6series.nodesRef ∧
      readRef (c6series.copy c6store).2 (c6series.copy c6store).1.nodesRef =
        readRef c6store c6series.nodesRef ∧
      readRef (c6series.copy c6store).2 c6series.nodesRef = readRef c6store c6series.nodesRef ∧
      readRef (heap_add_node (c6series.copy c6store).2 (c6series.copy c6store).1
          (TsArg.dt (mkDT 2020 6 1)) (some 5)).1 c6series.nodesRef =
        readRef c6store c6series.nodesRef ∧
      readRef (heap_del_node (c6series.copy c6store).2 (c6series.copy c6store).1
          (mkDT 2020 5 1)).1 c6series.nodesRef =
        readRef c6store c6series.nodesRef :=
  c6_copy_amended c6series c6store (TsArg.dt (mkDT 2020 6 1)) (some 5) (mkDT 2020 5 1)
    (by decide)

theorem filter_not_diff (m other : NodeMap) :
    m.filter (fun p => decide (p.1 ∉ (keysOf m).filter (fun d => decide (d ∉ keysOf other)))) =
      m.filter (fun p => decide (p.1 ∈ keysOf other)) := by
  apply List.filter_congr
  intro p hp
  have hmem : p.1 ∈ keysOf m := List.mem_map.mpr ⟨p, hp, rfl⟩
  by_cases h : p.1 ∈ keysOf other <;> simp [List.mem_filter, hmem, h]

theorem mem_keysOf_filter_mem (m other : NodeMap) (d : DT) :
    d ∈ keysOf (m.filter (fun p => decide (p.1 ∈ keysOf other))) ↔
      d ∈ keysOf m ∧ d ∈ keysOf other := by
  constructor
  · intro hd
    rcases List.mem_map.mp hd with ⟨p, hp, hpd⟩
    rcases List.mem_filter.mp hp with ⟨hpm, hpo⟩
    subst hpd
    exact ⟨List.mem_map.mpr ⟨p, hpm, rfl⟩, by simpa using hpo⟩
  · rintro ⟨hdm, hdo⟩
    rcases List.mem_map.mp hdm with ⟨p, hp, hpd⟩
    subst hpd
    exact List.mem_map.mpr ⟨p, List.mem_filter.mpr ⟨hp, by simpa using hdo⟩, rfl⟩

theorem diff_of_intersections_empty (m1 m2 : NodeMap) :
    (keysOf (m1.filter (fun p => decide (p.1 ∈ keysOf m2)))).filter
      (fun d => decide (d ∉ keysOf (m2.filter (fun p => decide (p.1 ∈ keysOf m1))))) = [] := by
  rw [List.filter_eq_nil_iff]
  intro d hd
  have h := (mem_keysOf_filter_mem m1 m2 d).mp hd
  simp only [decide_eq_true_eq, not_not, Decidable.not_not]
  exact (mem_keysOf_filter_mem m2 m1 d).mpr ⟨h.2, h.1⟩

theorem filter_not_mem_nil (m : NodeMap) :
    m.filter (fun p => decide (p.1 ∉ ([] : List DT))) = m := by
  rw [List.filter_eq_self]
  intro p _
  simp

theorem length_delDates (st : Store) (s : SeriesH) (ds : List DT) :
    (delDates st s ds).length = st.length :=
  length_writeRef st s.nodesRef _

theorem readRef_delDates_self (st : Store) (s : SeriesH) (ds : List DT)
    (h : s.nodesRef < st.length) :
    readRef (delDates st s ds) s.nodesRef =
      (readRef st s.nodesRef).filter (fun p => decide (p.1 ∉ ds)) :=
  readRef_writeRef_self st s.nodesRef _ h

theorem readRef_delDates_other (st : Store) (s : SeriesH) (ds : List DT) (r : Nat)
    (h : s.nodesRef ≠ r) :
    readRef (delDates st s ds) r = readRef st r :=
  readRef_writeRef_ne st s.nodesRef r _ h

/-- One run of `synchronize` characterized on the heap: the two result
references, the heap growth, the intersected contents at the fresh
references, and the untouched low part of the store. -/
theorem syncStore_reads (ts1 ts2 : SeriesH) (st : Store)
    (h2 : ts2.nodesRef < st.length) :
    (sync1 ts1 ts2 st).nodesRef = st.length ∧
      (sync2 ts1 ts2 st).nodesRef = st.length + 1 ∧
      (syncStore ts1 ts2 st).length = st.length + 2 ∧
      readRef (syncStore ts1 ts2 st) st.length =
        (readRef st ts1.nodesRef).filter
          (fun p => decide (p.1 ∈ keysOf (readRef st ts2.nodesRef))) ∧
      readRef (syncStore ts1 ts2 st) (st.length + 1) =
        (readRef st ts2.nodesRef).filter
          (fun p => decide (p.1 ∈ keysOf (readRef st ts1.nodesRef))) ∧
      (∀ r, r < st.length → readRef (syncStore ts1 ts2 st) r = readRef st r) := by
  have hst1 : (ts1.copy st).2 = st ++ [readRef st ts1.nodesRef] := rfl
  have hread2 : readRef (ts1.copy st).2 ts2.nodesRef = readRef st ts2.nodesRef := by
    rw [hst1]
    exact readRef_append_lt st _ ts2.nodesRef h2
  have hst2 : (ts2.copy (ts1.copy st).2).2 =
      (st ++ [readRef st ts1.nodesRef]) ++ [readRef st ts2.nodesRef] := by
    show (ts1.copy st).2 ++ [readRef (ts1.copy st).2 ts2.nodesRef] = _
    rw [hread2, hst1]
  have hr1 : (ts1.copy st).1.nodesRef = st.length := rfl
  have hr2 : (ts2.copy (ts1.copy st).2).1.nodesRef = st.length + 1 := by
    show ((ts1.copy st).2).length = st.length + 1
    rw [hst1]
    simp
  have hlen2 : (ts2.copy (ts1.copy st).2).2.length = st.length + 2 := by
    rw [hst2]
    simp
  have hreadA : readRef (ts2.copy (ts1.copy st).2).2 st.length = readRef st ts1.nodesRef := by
    rw [hst2, readRef_append_lt _ _ _ (by simp), readRef_append_len]
  have hreadB : readRef (ts2.copy (ts1.copy st).2).2 (st.length + 1) =
      readRef st ts2.nodesRef := by
    rw [hst2]
    have : (st ++ [readRef st ts1.nodesRef]).length = st.length + 1 := by simp
    rw [← this, readRef_append_len]
  have hstore : syncStore ts1 ts2 st =
      delDates
        (delDates (ts2.copy (ts1.copy st).2).2 (ts1.copy st).1
          ((keysOf (readRef st ts1.nodesRef)).filter
            (fun d => decide (d ∉ keysOf (readRef st ts2.nodesRef)))))
        (ts2.copy (ts1.copy st).2).1
        ((keysOf (readRef st ts2.nodesRef)).filter
          (fun d => decide (d ∉ keysOf (readRef st ts1.nodesRef)))) := rfl
  refine ⟨rfl, hr2, ?_, ?_, ?_, ?_⟩
  · rw [hstore, length_delDates, length_delDates, hlen2]
  · rw [hstore]
    rw [readRef_delDates_other _ _ _ _ (by rw [hr2]; omega)]
    have hself := readRef_delDates_self (ts2.copy (ts1.copy st).2).2 (ts1.copy st).1
      ((keysOf (readRef st ts1.nodesRef)).filter
        (fun d => decide (d ∉ keysOf (readRef st ts2.nodesRef))))
      (by rw [hr1, hlen2]; omega)
    rw [hr1] at hself
    rw [hself, hreadA, filter_not_diff]
  · rw [hstore]
    have hself := readRef_delDates_self
      (delDates (ts2.copy (ts1.copy st).2).2 (ts1.copy st).1
        ((keysOf (readRef st ts1.nodesRef)).filter
          (fun d => decide (d ∉ keysOf (readRef st ts2.nodesRef)))))
      (ts2.copy (ts1.copy st).2).1
      ((keysOf (readRef st ts2.nodesRef)).filter
        (fun d => decide (d ∉ keysOf (readRef st ts1.nodesRef))))
      (by rw [hr2, length_delDates, hlen2]; omega)
    rw [hr2] at hself
    rw [hself]
    rw [readRef_delDates_other _ _ _ _ (by rw [hr1]; omega)]
    rw [hreadB, filter_not_diff]
  · intro r hr
    rw [hstore]
    rw [readRef_delDates_other _ _ _ _ (by rw [hr2]; omega)]
    rw [readRef_delDates_other _ _ _ _ (by rw [hr1]; omega)]
    rw [hst2, readRef_append_lt _ _ _ (by simp; omega), readRef_append_lt _ _ _ hr]

theorem filter_inter_self (m1 m2 : NodeMap) :
    (m1.filter (fun p => decide (p.1 ∈ keysOf m2))).filter
      (fun p => decide (p.1 ∈ keysOf (m2.filter (fun p => decide (p.1 ∈ keysOf m1))))) =
      m1.filter (fun p => decide (p.1 ∈ keysOf m2)) := by
  rw [List.filter_eq_self]
  intro p hp
  rcases List.mem_filter.mp hp with ⟨hpm, hpo⟩
  simp only [decide_eq_true_eq]
  exact (mem_keysOf_filter_mem m2 m1 p.1).mpr ⟨by simpa using hpo, List.mem_map.mpr ⟨p, hpm, rfl⟩⟩

/-- C8, confirmed: `synchronize(a, b)` returns two fresh series whose node
dicts hold exactly the bindings of `a` (resp. `b`) at timestamps present in
both inputs (so both timestamp sets are the intersection, with each input's
own values); the dicts of `a` and `b` themselves are unchanged; and running
`synchronize` again on the two results yields series with equal metadata and
equal node contents (idempotence). -/
theorem c8_synchronize_spec (ts1 ts2 : SeriesH) (st : Store)
    (h1 : ts1.nodesRef < st.length) (h2 : ts2.nodesRef < st.length) :
    readRef (syncStore ts1 ts2 st) (sync1 ts1 ts2 st).nodesRef =
        (readRef st ts1.nodesRef).filter
          (fun p => decide (p.1 ∈ keysOf (readRef st ts2.nodesRef))) ∧
      readRef (syncStore ts1 ts2 st) (sync2 ts1 ts2 st).nodesRef =
        (readRef st ts2.nodesRef).filter
          (fun p => decide (p.1 ∈ keysOf (readRef st ts1.nodesRef))) ∧
      readRef (syncStore ts1 ts2 st) ts1.nodesRef = readRef st ts1.nodesRef ∧
      readRef (syncStore ts1 ts2 st) ts2.nodesRef = readRef st ts2.nodesRef ∧
      metaEqH (sync1 (sync1 ts1 ts2 st) (sync2 ts1 ts2 st) (syncStore ts1 ts2 st))
        (sync1 ts1 ts2 st) ∧
      metaEqH (sync2 (sync1 ts1 ts2 st) (sync2 ts1 ts2 st) (syncStore ts1 ts2 st))
        (sync2 ts1 ts2 st) ∧
      readRef (syncStore (sync1 ts1 ts2 st) (sync2 ts1 ts2 st) (syncStore ts1 ts2 st))
          (sync1 (sync1 ts1 ts2 st) (sync2 ts1 ts2 st) (syncStore ts1 ts2 st)).nodesRef =
        readRef (syncStore ts1 ts2 st) (sync1 ts1 ts2 st).nodesRef ∧
      readRef (syncStore (sync1 ts1 ts2 st) (sync2 ts1 ts2 st) (syncStore ts1 ts2 st))
          (sync2 (sync1 ts1 ts2 st) (sync2 ts1 ts2 st) (syncStore ts1 ts2 st)).nodesRef =
        readRef (syncStore ts1 ts2 st) (sync2 ts1 ts2 st).nodesRef := by
  obtain ⟨e1, e2, elen, eA, eB, elow⟩ := syncStore_reads ts1 ts2 st h2
  have hs2' : (sync2 ts1 ts2 st).nodesRef < (syncStore ts1 ts2 st).length := by
    rw [e2, elen]
    omega
  obtain ⟨f1, f2, flen, fA, fB, flow⟩ :=
    syncStore_reads (sync1 ts1 ts2 st) (sync2 ts1 ts2 st) (syncStore ts1 ts2 st) hs2'
  refine ⟨?_, ?_, elow ts1.nodesRef h1, elow ts2.nodesRef h2, ?_, ?_, ?_, ?_⟩
  · rw [e1, eA]
  · rw [e2, eB]
  · exact ⟨rfl, rfl, rfl, rfl, rfl, rfl, rfl, rfl, rfl, rfl⟩
  · exact ⟨rfl, rfl, rfl, rfl, rfl, rfl, rfl, rfl, rfl, rfl⟩
  · rw [f1, fA, e1, eA, e2, eB, filter_inter_self]
  · rw [f2, fB, e1, eA, e2, eB]
    exact filter_inter_self _ _

/-- First input series for the C8 witness. -/
def c8a : SeriesH :=
  { title := "a", station_id := "1", station_name := "A", param := "Q",
    unit := "u", location := "l", lat := 0, lon := 0, z := 0,
    interpretation := Interpretation.BlockRight, nodesRef := 0 }

/-- Second input series for the C8 witness. -/
def c8b : SeriesH :=
  { title := "b", station_id := "2", station_name := "B", param := "P",
    unit := "v", location := "m", lat := 1, lon := 1, z := 1,
    interpretation := Interpretation.Instantaneous, nodesRef := 1 }

/-- Store holding the two input dicts for the C8 witness (common timestamp:
2020-01-02). -/
def c8store : Store :=
  [[(mkDT 2020 1 1, some 1), (mkDT 2020 1 2, some 2)],
   [(mkDT 2020 1 2, some 5), (mkDT 2020 1 3, none)]]

/-- C8, witness: the synchronize specification at the concrete pair of series. -/
theorem c8_synchronize_witness :
    readRef (syncStore c8a c8b c8store) (sync1 c8a c8b c8store).nodesRef =
        (readRef c8store c8a.nodesRef).filter
          (fun p => decide (p.1 ∈ keysOf (readRef c8store c8b.nodesRef))) ∧
      readRef (syncStore c8a c8b c8store) (sync2 c8a c8b c8store).nodesRef =
        (readRef c8store c8b.nodesRef).filter
          (fun p => decide (p.1 ∈ keysOf (readRef c8store c8a.nodesRef))) ∧
      readRef (syncStore c8a c8b c8store) c8a.nodesRef = readRef c8store c8a.nodesRef ∧
      readRef (syncStore c8a c8b c8store) c8b.nodesRef = readRef c8store c8b.nodesRef ∧
      metaEqH (sync1 (sync1 c8a c8b c8store) (sync2 c8a c8b c8store) (syncStore c8a c8b c8store))
        (sync1 c8a c8b c8store) ∧
      metaEqH (sync2 (sync1 c8a c8b c8store) (sync2 c8a c8b c8store) (syncStore c8a c8b c8store))
        (sync2 c8a c8b c8store) ∧
      readRef (syncStore (sync1 c8a c8b c8store) (sync2 c8a c8b c8store) (syncStore c8a c8b c8store))
          (sync1 (sync1 c8a c8b c8store) (sync2 c8a c8b c8store)
            (syncStore c8a c8b c8store)).nodesRef =
        readRef (syncStore c8a c8b c8store) (sync1 c8a c8b c8store).nodesRef ∧
      readRef (syncStore (sync1 c8a c8b c8store) (sync2 c8a c8b c8store) (syncStore c8a c8b c8store))
          (sync2 (sync1 c8a c8b c8store) (sync2 c8a c8b c8store)
            (syncStore c8a c8b c8store)).nodesRef =
        readRef (syncStore c8a c8b c8store) (sync2 c8a c8b c8store).nodesRef :=
  c8_synchronize_spec c8a c8b c8store (by decide) (by decide)

/-- Numeric value of a decimal digit character. -/
def digitVal (c : Char) : Nat := c.toNat - 48

/-- Natural number denoted by a list of decimal digit characters. -/
def natOfDigits (cs : List Char) : Nat := cs.foldl (fun acc c => acc * 10 + digitVal c) 0

/-- Python `str.strip()` on the character list of a string. -/
def trimChars (cs : List Char) : List Char :=
  ((cs.dropWhile Char.isWhitespace).reverse.dropWhile Char.isWhitespace).reverse

/-- Python `str.startswith(needle)`: first argument is the haystack. -/
def beginsWith : List Char → List Char → Bool
  | _, [] => true
  | [], _ :: _ => false
  | c :: cs, d :: ds => c = d && beginsWith cs ds

/-- Python `float(s)` on an optionally signed plain decimal literal
(`[+-]digits[.digits]`), as the exact rational the literal denotes; any other
shape is a `ValueError`.  (The engine's inputs only exercise this fragment.) -/
def parseFloatQ (s : String) : Except String ℚ :=
  let cs := s.toList
  let sgn : Int × List Char :=
    match cs with
    | '-' :: r => (-1, r)
    | '+' :: r => (1, r)
    | _ => (1, cs)
  let ip := sgn.2.takeWhile Char.isDigit
  let rest := sgn.2.dropWhile Char.isDigit
  match rest with
  | [] =>
      if ip.isEmpty then Except.error "ValueError: could not convert string to float"
      else Except.ok (mkRat (sgn.1 * natOfDigits ip) 1)
  | '.' :: fp =>
      if fp.all Char.isDigit ∧ ¬ (ip.isEmpty ∧ fp.isEmpty) then
        Except.ok (mkRat (sgn.1 * (natOfDigits ip * 10 ^ fp.length + natOfDigits fp))
          (10 ^ fp.length))
      else Except.error "ValueError: could not convert string to float"
  | _ => Except.error "ValueError: could not convert string to float"

/-- Python `int(s)` on an optionally signed digit string. -/
def parseIntStr (s : String) : Except String Int :=
  let cs := s.toList
  let sgn : Int × List Char :=
    match cs with
    | '-' :: r => (-1, r)
    | '+' :: r => (1, r)
    | _ => (1, cs)
  if sgn.2.isEmpty ∨ ¬ sgn.2.all Char.isDigit then
    Except.error "ValueError: invalid literal for int"
  else Except.ok (sgn.1 * (natOfDigits sgn.2 : Int))

/-- Calendar validity of a datetime — the check `datetime.datetime` (and hence
`strptime`) performs on its fields. -/
def validDT (d : DT) : Bool :=
  1 ≤ d.month && d.month ≤ 12 && 1 ≤ d.day && d.day ≤ daysInMonth d.year d.month &&
    d.hour < 24 && d.minute < 60 && d.second < 60 && 1 ≤ d.year && d.year ≤ 9999

/-- `datetime.strptime(date + " " + time, "%Y-%m-%d %H:%M:%S")` as used by the
PI-XML event decoder: fixed shape, digits at the digit positions, and a
calendar-valid result; anything else raises `ValueError`. -/
def strptimeDateTime (date time : String) : Except String DT :=
  match date.toList, time.toList with
  | [y1, y2, y3, y4, s1, m1, m2, s2, d1, d2], [h1, h2, c1, n1, n2, c2, e1, e2] =>
      if ([y1, y2, y3, y4, m1, m2, d1, d2, h1, h2, n1, n2, e1, e2].all Char.isDigit) ∧
          s1 = '-' ∧ s2 = '-' ∧ c1 = ':' ∧ c2 = ':' then
        let d : DT := ⟨natOfDigits [y1, y2, y3, y4], natOfDigits [m1, m2], natOfDigits [d1, d2],
          natOfDigits [h1, h2], natOfDigits [n1, n2], natOfDigits [e1, e2]⟩
        if validDT d then Except.ok d
        else Except.error "ValueError: time data does not match format"
      else Except.error "ValueError: time data does not match format"
  | _, _ => Except.error "ValueError: time data does not match format"

/-- One `event` element of a PI-XML `series`, with its four attributes as the
strings `ElementTree` delivers. -/
structure PIEvent where
  date : String
  time : String
  value : String
  flag : String
deriving DecidableEq, Repr

/-- One `series` element of a PI-XML document after XML parsing: the header
fields read by `read_fews` and the list of events.  (ElementTree and the XML
layout are external; `read_fews` is modeled from the point where it walks the
parsed elements.) -/
structure PISeriesXml where
  type_ : String
  locationId : String
  parameterId : String
  stationName : String
  units : String
  missVal : String
  events : List PIEvent
deriving DecidableEq, Repr

/-- The header `type` → interpretation mapping of `read_fews`; any other text
raises an Exception. -/
def mapType (t : String) : Except String Interpretation :=
  if t = "instantaneous" then Except.ok Interpretation.Instantaneous
  else if t = "mean" then Except.ok Interpretation.BlockRight
  else if t = "accumulative" then Except.ok Interpretation.CumulativePerTimestep
  else Except.error "Exception: unexpected type"

/-- The event loop of `read_fews`: parse the flag (`int(...)`), decode the
value (blank or equal to `missVal` → NaN, otherwise `float(...)`), parse the
timestamp, and `add_node` it (whose KeyError on duplicates propagates). -/
def processEvents (missVal : String) (ts : Timeseries) : List PIEvent → Except String Timeseries
  | [] => Except.ok ts
  | ev :: rest => do
      let _flag ← parseIntStr ev.flag
      let value ← (if trimChars ev.value.toList = [] ∨ ev.value = missVal
        then Except.ok (none : Val)
        else (parseFloatQ ev.value).map Option.some)
      let t ← strptimeDateTime ev.date ev.time
      let r := ts.add_node (TsArg.dt t) value
      match r.2 with
      | some err => Except.error err
      | none => processEvents missVal r.1 rest

/-- The body of the per-series `try` block of `read_fews` (after the header
reads): build the series metadata, map the header type to an interpretation
(raising on unknown types), then decode the events. -/
def processSeriesBody (x : PISeriesXml) : Except String Timeseries := do
  let ts := Timeseries.init ""
  let ts := { ts with
    title := x.locationId ++ "." ++ x.parameterId
    param := x.parameterId
    station_name := x.locationId ++ "." ++ x.stationName
    unit := x.units
    station_id := x.locationId }
  let interp ← mapType x.type_
  let ts := { ts with interpretation := interp }
  processEvents x.missVal ts x.events

/-- The nested result dict of `read_fews`, flattened to assoc pairs
`(locationId, parameterId) → Optional series`. -/
abbrev FewsResult := List ((String × String) × Option Timeseries)

/-- `result[loc][param] = v` with dict update semantics. -/
def updateRes (res : FewsResult) (k : String × String) (v : Option Timeseries) : FewsResult :=
  if k ∈ res.map Prod.fst then res.map (fun p => if p.1 = k then (k, v) else p)
  else res ++ [(k, v)]

/-- One iteration of the series loop of `read_fews`: the entry is first set
to None; if the `try` body succeeds the entry becomes the series, and if it
raises the exception is caught, logged, and the loop continues — the entry
stays None and nothing propagates. -/
def read_fews_step (res : FewsResult) (x : PISeriesXml) : FewsResult :=
  let res1 := updateRes res (x.locationId, x.parameterId) none
  match processSeriesBody x with
  | Except.ok ts => updateRes res1 (x.locationId, x.parameterId) (some ts)
  | Except.error _ => res1

/-- `Timeseries.read_fews` over the parsed `series` elements: a total
function — every per-series failure is swallowed by the `except` block. -/
def read_fews (xs : List PISeriesXml) : FewsResult := xs.foldl read_fews_step []

/-- A PI-XML series whose header type is none of the three recognized values. -/
def c5bogus : PISeriesXml :=
  { type_ := "bogus", locationId := "LOC", parameterId := "PAR", stationName := "Station",
    units := "mm", missVal := "-999.0",
    events := [{ date := "2021-07-05", time := "16:30:00", value := "177", flag := "2" }] }

/-- C5, counterexample: on a series with header type "bogus" the per-series
body does raise, but `read_fews` returns normally with the (locationId,
parameterId) entry left as None — the failure does not surface to the
caller, contrary to the claim. -/
theorem c5_read_fews_counterexample :
    (processSeriesBody c5bogus).isOk = false ∧
      read_fews [c5bogus] = [(("LOC", "PAR"), none)] := by
  constructor
  · decide
  · decide

/-- C5, amended: a header type other than "instantaneous", "mean" or
"accumulative" raises inside the per-series try block, and `read_fews`
catches it: the step over such a series only records None for its
(locationId, parameterId) and returns normally. -/
theorem c5_read_fews_suppresses_type_error (res : FewsResult) (x : PISeriesXml)
    (ht1 : x.type_ ≠ "instantaneous") (ht2 : x.type_ ≠ "mean")
    (ht3 : x.type_ ≠ "accumulative") :
    (processSeriesBody x).isOk = false ∧
      read_fews_step res x = updateRes res (x.locationId, x.parameterId) none := by
  have hmap : mapType x.type_ = Except.error "Exception: unexpected type" := by
    simp [mapType, ht1, ht2, ht3]
  have hbody : processSeriesBody x = Except.error "Exception: unexpected type" := by
    unfold processSeriesBody
    rw [hmap]
    rfl
  constructor
  · rw [hbody]
    rfl
  · unfold read_fews_step
    rw [hbody]

/-- C5, witness: the suppressed-error specification at the concrete bogus
series with an empty accumulator. -/
theorem c5_read_fews_suppresses_witness :
    (processSeriesBody c5bogus).isOk = false ∧
      read_fews_step [] c5bogus = updateRes [] (c5bogus.locationId, c5bogus.parameterId) none :=
  c5_read_fews_suppresses_type_error [] c5bogus (by decide) (by decide) (by decide)

/-- One data line of a UVF file, as its fixed-column slices: the two-digit
year, month, day, hour and minute digits of `line[0:10]`, and the raw value
text `line[10:]`. -/
structure UvfLine where
  yy : Nat
  mm : Nat
  dd : Nat
  hh : Nat
  mi : Nat
  valueStr : String
deriving DecidableEq, Repr

/-- Value decoding of a UVF data line: strip, map values starting with
`-777` to NaN, parse the rest with `float(...)`. -/
def decodeUvfVal (s : String) : Except String Val :=
  let v := trimChars s.toList
  if beginsWith v ['-', '7', '7', '7'] then Except.ok none
  else (parseFloatQ (⟨v⟩ : String)).map Option.some

/-- The data loop of `Timeseries.read_uvf` (lines after the four header
lines), with `century` initially the four-digit header century (line 2,
columns 30:34) and `year` the running two-digit year, initially 0: decode the
value; bump the century by 100 when the two-digit year decreases; prepend the
first two digits of the century to the date slice and parse it (`%Y%m%d%H%M`,
which validates the calendar fields); store via `ts[date] = value`, whose
`add_node` raises on duplicate timestamps (`seen` holds the dates so far).
Returns the decoded nodes in file order (the dict's insertion order). -/
def read_uvf_data : Nat → Nat → List DT → List UvfLine → Except String (List (DT × Val))
  | _, _, _, [] => Except.ok []
  | century, year, seen, l :: rest => do
      let v ← decodeUvfVal l.valueStr
      let century' := if l.yy < year then century + 100 else century
      let fullYear := (century' / 100) * 100 + l.yy
      let d : DT := ⟨fullYear, l.mm, l.dd, l.hh, l.mi, 0⟩
      if validDT d then
        if d ∈ seen then Except.error "KeyError: duplicate timestamp"
        else do
          let tail ← read_uvf_data century' l.yy (d :: seen) rest
          Except.ok ((d, v) :: tail)
      else Except.error "ValueError: time data does not match format"

/-- How a writer renders a datetime on a UVF data line: two-digit year and
the remaining calendar fields, plus the value text. -/
def uvfLineOf (d : DT) (vs : String) : UvfLine :=
  ⟨d.year % 100, d.month, d.day, d.hour, d.minute, vs⟩

/-- Chronological-order side condition on the decoded full years: starting
from the virtual previous year `p`, consecutive years never decrease and
advance by less than a century (and stay four-digit). -/
def yearOk : Nat → List DT → Bool
  | _, [] => true
  | p, d :: rest => (p ≤ d.year && d.year < p + 100 && d.year ≤ 9999) && yearOk d.year rest

/-- Induction core for the UVF century rollover: starting from a virtual
previous year `p` (the loop state is `century = (p / 100) * 100`,
`year = p % 100`), decoding the lines written for chronologically ordered
dates whose successive years advance by less than a century reconstructs
exactly the original dates and values. -/
theorem read_uvf_data_decodes (dts : List DT) (p : Nat) (vstrs : List String) (vals : List Val)
    (seen : List DT)
    (hp1 : 1000 ≤ p) (hp2 : p ≤ 9999)
    (hyear : yearOk p dts = true)
    (hvd : ∀ d ∈ dts, validDT d = true ∧ d.second = 0)
    (hinc : dts.Pairwise (fun a b => a.key < b.key))
    (hseen : ∀ x ∈ seen, ∀ d ∈ dts, x.key < d.key)
    (hv : List.Forall₂ (fun s v => decodeUvfVal s = Except.ok v) vstrs vals) :
    read_uvf_data ((p / 100) * 100) (p % 100) seen (List.zipWith uvfLineOf dts vstrs) =
      Except.ok (dts.zip vals) := by
  induction dts generalizing p seen vstrs vals with
  | nil => rfl
  | cons d dts ih =>
    cases hv with
    | nil => rfl
    | @cons s v l1 l2 hvh hvt =>
      simp only [yearOk, Bool.and_eq_true, decide_eq_true_eq] at hyear
      obtain ⟨⟨⟨hy1, hy2⟩, hy3⟩, hyrest⟩ := hyear
      have hvdh := hvd d (List.mem_cons_self d dts)
      have hvdt : ∀ d' ∈ dts, validDT d' = true ∧ d'.second = 0 := by
        intro d' hd'
        exact hvd d' (List.mem_cons_of_mem d hd')
      rcases List.pairwise_cons.mp hinc with ⟨hall, htail⟩
      have hcent : (if d.year % 100 < p % 100 then (p / 100) * 100 + 100 else (p / 100) * 100)
          = (d.year / 100) * 100 := by
        by_cases h : d.year % 100 < p % 100
        · rw [if_pos h]
          omega
        · rw [if_neg h]
          omega
      have hfull : ((d.year / 100) * 100 / 100) * 100 + d.year % 100 = d.year := by
        omega
      have hdeq : (⟨((d.year / 100) * 100 / 100) * 100 + d.year % 100,
          d.month, d.day, d.hour, d.minute, 0⟩ : DT) = d := by
        cases d with
        | mk Y M D H Mi S =>
          have hS : S = 0 := hvdh.2
          subst hS
          have hY : ((Y / 100) * 100 / 100) * 100 + Y % 100 = Y := by omega
          exact congrArg (fun y => (⟨y, M, D, H, Mi, 0⟩ : DT)) hY
      have hnotseen : d ∉ seen := by
        intro hmem
        have := hseen d hmem d (List.mem_cons_self d dts)
        omega
      have hseen' : ∀ x ∈ d :: seen, ∀ d' ∈ dts, x.key < d'.key := by
        intro x hx d' hd'
        rcases List.mem_cons.mp hx with h' | h'
        · rw [h']
          exact hall d' hd'
        · exact hseen x h' d' (List.mem_cons_of_mem d hd')
      have hrec := ih d.year l1 l2 (d :: seen) (by omega) hy3 hyrest hvdt htail hseen' hvt
      simp only [List.zipWith_cons_cons, read_uvf_data, uvfLineOf, hvh]
      simp only [Except.bind, bind]
      rw [hcent, hdeq]
      rw [if_pos hvdh.1, if_neg hnotseen, hrec]
      rfl

/-- C9, confirmed: for a well-formed UVF input — data lines written from
chronologically increasing, calendar-valid dates (two-digit years, rollover
gaps under a century, four-digit header century matching the first date) with
decodable value fields — `read_uvf` decodes them to exactly the original full
dates (hence strictly increasing across the century boundary), with the
running century incremented by 100 at each two-digit-year decrease. -/
theorem c9_uvf_century_rollover (dts : List DT) (vstrs : List String) (vals : List Val)
    (century0 : Nat)
    (hc1 : 1000 ≤ century0) (hc2 : century0 ≤ 9999) (hc3 : century0 % 100 = 0)
    (hyear : yearOk century0 dts = true)
    (hvd : ∀ d ∈ dts, validDT d = true ∧ d.second = 0)
    (hinc : dts.Pairwise (fun a b => a.key < b.key))
    (hv : List.Forall₂ (fun s v => decodeUvfVal s = Except.ok v) vstrs vals)
    (hlen : dts.length = vstrs.length) :
    read_uvf_data century0 0 [] (List.zipWith uvfLineOf dts vstrs) = Except.ok (dts.zip vals) ∧
      (dts.zip vals).map Prod.fst = dts := by
  have h := read_uvf_data_decodes dts century0 vstrs vals [] hc1 hc2 hyear hvd hinc
    (by intro x hx; exact absurd hx (List.not_mem_nil x)) hv
  have e1 : century0 / 100 * 100 = century0 := by omega
  rw [e1, hc3] at h
  refine ⟨h, ?_⟩
  have hl2 : vstrs.length = vals.length := hv.length_eq
  exact List.map_fst_zip dts vals (by omega)

/-- Dates crossing the 1999 → 2000 century boundary for the C9 witness. -/
def c9dts : List DT := [⟨1999, 12, 31, 23, 0, 0⟩, ⟨2000, 1, 1, 0, 0, 0⟩, ⟨2001, 2, 28, 5, 30, 0⟩]

/-- Value fields for the C9 witness (the middle one is the -777 sentinel). -/
def c9vstrs : List String := ["15", "  -777.0", "23"]

/-- Decoded values for the C9 witness. -/
def c9vals : List Val := [some 15, none, some 23]

/-- C9, witness: decoding the concrete lines with two-digit years 99, 00, 01
and header century 1900 yields the three strictly increasing full dates. -/
theorem c9_uvf_century_rollover_witness :
    read_uvf_data 1900 0 [] (List.zipWith uvfLineOf c9dts c9vstrs) =
        Except.ok (c9dts.zip c9vals) ∧
      (c9dts.zip c9vals).map Prod.fst = c9dts :=
  c9_uvf_century_rollover c9dts c9vstrs c9vals 1900 (by decide) (by decide) (by decide)
    (by decide) (by decide) (by decide)
    (by
      refine List.Forall₂.cons ?_ (List.Forall₂.cons ?_ (List.Forall₂.cons ?_ List.Forall₂.nil)) <;>
        decide)
    (by decide)
